import Mathlib

/-!
Verification development for the AMP binary codec layer
(`sim/amp/formats.py`, `sim/amp/datatype.py`).

Bytes are modelled as `List Nat`, each entry intended to lie below 256.
Decoders have the shape `List Nat → Option (value × rest)`; a `none`
result models a raised decoding exception (the reference code raises on
malformed input), and the returned `rest` models the bytes a scapy field
hands back to its caller.
-/

/-- Modelled from the spec: the `sdnv` module imported by `formats.py` is
not part of the sources; per spec section 4.1 an integer is split into
big-endian 7-bit groups, most-significant first, using the minimal number
of groups.  `sdnvGroupsF` is the fuel-driven worker (fuel `n` always
suffices since the argument shrinks by a factor of 128 each step). -/
def sdnvGroupsF : Nat → Nat → List Nat
  | 0, n => [n % 128]
  | fuel + 1, n => if n < 128 then [n] else sdnvGroupsF fuel (n / 128) ++ [n % 128]

/-- Modelled from the spec: the big-endian base-128 digit list of `n`
(a single zero digit for `n = 0`). -/
def sdnvGroups (n : Nat) : List Nat := sdnvGroupsF n n

/-- Modelled from the spec: set the continuation (high) bit on every
group except the last one. -/
def markCont : List Nat → List Nat
  | [] => []
  | [x] => [x]
  | x :: y :: rest => (x + 128) :: markCont (y :: rest)

/-- Modelled from the spec: `sdnv.int2sdnv`, the variable-length integer
encoder (7-bit groups, continuation bit set on all but the final byte). -/
def int2sdnv (n : Nat) : List Nat := markCont (sdnvGroups n)

/-- Modelled from the spec: `sdnv.sdnvlen`, the encoded length of `n`. -/
def sdnvlen (n : Nat) : Nat := (sdnvGroups n).length

/-- Modelled from the spec: accumulator loop of the variable-length
integer decoder; consumes bytes while the continuation bit is set and
fails (`none`, a raised `Truncated`) if the buffer ends first. -/
def sdnv2intAux (acc : Nat) : List Nat → Option (List Nat × Nat)
  | [] => none
  | b :: rest =>
    if b < 128 then some (rest, acc * 128 + b)
    else sdnv2intAux (acc * 128 + b % 128) rest

/-- Modelled from the spec: `sdnv.sdnv2int`; returns the unconsumed rest
of the buffer together with the decoded value, mirroring the
`(data, val)` pair of the reference implementation. -/
def sdnv2int (data : List Nat) : Option (List Nat × Nat) := sdnv2intAux 0 data

/-- Fuel-driven loop decoding a byte string as a back-to-back sequence of
variable-length integers until the slice is exhausted (the loop of
`OidField.oidenc2tuple`); fuel `data.length` always suffices. -/
def sdnvSeqF : Nat → List Nat → Option (List Nat)
  | _, [] => some []
  | 0, _ :: _ => none
  | fuel + 1, data =>
    match sdnv2int data with
    | none => none
    | some (rest, val) => (sdnvSeqF fuel rest).map (fun vs => val :: vs)

/-- Decode a byte string as a back-to-back sequence of variable-length
integers until it is exhausted. -/
def sdnvSeq (data : List Nat) : Option (List Nat) := sdnvSeqF data.length data

/- ### The OID field (`formats.py`, class `OidField`) and SDNV fields -/
/-- `OidField.tuple2oidenc` (formats.py lines 146-154): merge the first two
components into `oid[0] * 40 + oid[1]`, then emit every part (the merged
value and each remaining component) with the variable-length integer
encoder; sequences with fewer than two components yield the empty string. -/
def tuple2oidenc : List Nat → List Nat
  | c0 :: c1 :: rest => (((c0 * 40 + c1) :: rest).map int2sdnv).flatten
  | _ => []

/-- `OidField.oidenc2tuple` (formats.py lines 156-172): empty input gives the
empty tuple; otherwise the first byte is split `div 40` / `mod 40` into the
first two components and the remaining bytes are decoded as back-to-back
variable-length integers until exhausted.  `none` models the exception
raised when a trailing integer is truncated. -/
def oidenc2tuple : List Nat → Option (List Nat)
  | [] => some []
  | b :: rest => (sdnvSeq rest).map (fun vs => b / 40 :: b % 40 :: vs)

/-- `OidField.h2i` (formats.py lines 178-184): human-to-internal conversion;
`None` passes through and a sequence of fewer than three elements raises
`ValueError`. -/
def OidField_h2i (x : Option (List Nat)) : Except String (Option (List Nat)) :=
  match x with
  | none => Except.ok none
  | some l =>
    if l.length < 3 then Except.error "OID must have at least 3 elements"
    else Except.ok (some l)

/-- `OidField.i2m` (formats.py lines 186-190): `None` encodes as the empty
string, otherwise `tuple2oidenc` of the tuple. -/
def oidI2m (x : Option (List Nat)) : List Nat :=
  match x with
  | none => []
  | some l => tuple2oidenc l

/-- `OidField.i2len` (formats.py lines 198-203): the declared encoded length:
the sum of the per-component integer lengths, computed without the
two-component merge performed by `tuple2oidenc`. -/
def oidI2len (x : Option (List Nat)) : Nat :=
  match x with
  | none => 0
  | some l => (l.map sdnvlen).sum

/-- `SdnvField.i2m` (formats.py lines 51-55): a `None` value encodes as the
zero-value SDNV. -/
def sdnvFieldI2m (x : Option Nat) : List Nat := int2sdnv (x.getD 0)

/-- `SdnvFieldLenField.i2m` (formats.py lines 106-111): a `None` value is
replaced by the count/length extracted from the referenced field of the
packet (passed here as `extract`), then encoded as for `SdnvField`. -/
def sdnvFieldLenFieldI2m (extract : Nat) (x : Option Nat) : List Nat :=
  int2sdnv (x.getD extract)

/- ### Decoder combinators (modelling scapy field dissection) -/
/-- Modelled from the spec: a decoder consumes a prefix of the byte buffer
and returns the decoded value together with the remaining bytes, exactly as
a scapy `getfield` does; `none` models a raised dissection error. -/
def Dec (α : Type) : Type := List Nat → Option (α × List Nat)

instance : Monad Dec where
  pure a := fun b => some (a, b)
  bind d f := fun b =>
    match d b with
    | none => none
    | some (a, r) => f a r

/-- Read one byte (a scapy `!B` field). -/
def readByte : Dec Nat := fun b =>
  match b with
  | [] => none
  | x :: rest => some (x, rest)

/-- Read `n` raw bytes: `StrLenField.getfield` and `OidField.getfield`
(formats.py line 216) split the buffer with Python slicing `s[:l]` / `s[l:]`,
which never raises; a buffer shorter than `n` yields the whole buffer, so a
short read truncates silently instead of failing. -/
def readBytes (n : Nat) : Dec (List Nat) := fun b =>
  some (b.take n, b.drop n)

/-- Decode one variable-length integer (`SdnvField.getfield`). -/
def sdnvDec : Dec Nat := fun b =>
  match sdnv2int b with
  | none => none
  | some (r, v) => some (v, r)

/-- Consume the whole rest of the buffer (`StrField.getfield`, used by the
unbounded `parameters` field of `Mid`). -/
def takeRest : Dec (List Nat) := fun b => some (b, [])

/-- Lift a pure optional result into a decoder consuming nothing. -/
def ofOption {α : Type} (o : Option α) : Dec α := fun b =>
  match o with
  | none => none
  | some a => some (a, b)

/-- Worker for `strNullDec`: split at the first zero byte; when the buffer
holds no zero byte, scapy's `StrNullField` returns the whole remaining
buffer as the value without error. -/
def strNullAux : List Nat → Option (List Nat × List Nat)
  | [] => some ([], [])
  | b :: t => if b = 0 then some ([], t) else (strNullAux t).map (fun p => (b :: p.1, p.2))

/-- Decode a null-terminated string (`StrNullField`): the bytes up to and
excluding the first zero byte. -/
def strNullDec : Dec (List Nat) := fun b => strNullAux b

/-- Decode up to `n` back-to-back elements with `d` (`PacketListField` with
a `count_from` callback): its dissection loop runs while bytes remain, so it
stops without error when the buffer empties before the count is reached; a
failure of the element decoder itself still propagates. -/
def decListN {α : Type} (d : Dec α) : Nat → Dec (List α)
  | 0 => pure []
  | n + 1 => fun b =>
    match b with
    | [] => some ([], [])
    | _ :: _ => (d >>= fun x => decListN d n >>= fun xs => pure (x :: xs)) b

/- ### Data types (`datatype.py`) -/
/-- The `Mid` record (datatype.py lines 137-173): an OID with optional
issuer, nickname, parameters and tag fields. -/
structure Mid where
  issuer : Option Nat
  nickname : Option Nat
  oid : Option (List Nat)
  parameters : Option (List Nat)
  tag : Option Nat

/-- One presence bit (`PresenceFlag.i2m`, datatype.py lines 115-135): `1`
exactly when the tracked field is present. -/
def presBit {α : Type} (o : Option α) : Nat := if o.isSome then 1 else 0

/-- The presence-flag byte of a `Mid`: the four declared one-bit fields in
`fields_desc` order (nickname, parameters, tag, issuer) packed most
significant bit first, followed by the four-bit zero `pad` field. -/
def midFlagByte (m : Mid) : Nat :=
  128 * presBit m.nickname + 64 * presBit m.parameters + 32 * presBit m.tag +
    16 * presBit m.issuer

/-- Bytes contributed by an optional SDNV field guarded by a
`ConditionalField`: absent fields contribute nothing. -/
def optSdnv (o : Option Nat) : List Nat :=
  match o with
  | none => []
  | some v => int2sdnv v

/-- Encoding of a `Mid` (datatype.py lines 147-173): flag byte, conditional
issuer and nickname SDNVs, the `oid_len` length field (computed by
`OidField.i2len`), the OID bytes (`OidField.i2m`), the raw parameters bytes
when present, and the conditional tag SDNV. -/
def encodeMid (m : Mid) : List Nat :=
  midFlagByte m ::
    (optSdnv m.issuer ++ optSdnv m.nickname ++
      sdnvFieldLenFieldI2m (oidI2len m.oid) none ++ oidI2m m.oid ++
      m.parameters.getD [] ++ optSdnv m.tag)

/-- Decode one conditional SDNV field guarded by a presence bit. -/
def condSdnv (pres : Bool) : Dec (Option Nat) :=
  if pres then sdnvDec >>= fun v => pure (some v) else pure none

/-- Field dissection of a `Mid` after the flag byte has been read:
conditional issuer then nickname, the `oid_len` SDNV, `oid_len` bytes of
OID decoded with `oidenc2tuple`, the unbounded parameters string when its
bit is set (`StrField` consumes the whole rest), then the conditional
tag. -/
def decMidAfterFlags (flags : Nat) : Dec Mid :=
  condSdnv (flags.testBit 4) >>= fun issuer =>
  condSdnv (flags.testBit 7) >>= fun nickname =>
  sdnvDec >>= fun oidLen =>
  readBytes oidLen >>= fun oidBytes =>
  ofOption (oidenc2tuple oidBytes) >>= fun oid =>
  (if flags.testBit 6 then takeRest >>= fun p => pure (some p) else pure none) >>=
    fun params =>
  condSdnv (flags.testBit 5) >>= fun tag =>
  pure ⟨issuer, nickname, some oid, params, tag⟩

/-- Dissection of a `Mid`. -/
def decMid : Dec Mid := readByte >>= fun flags => decMidAfterFlags flags

/-- Encoding of a `Blob` (datatype.py lines 78-85): SDNV length prefix then
the raw data bytes. -/
def encodeBlob (data : List Nat) : List Nat :=
  sdnvFieldLenFieldI2m data.length none ++ data

/-- Dissection of a `Blob`. -/
def decBlob : Dec (List Nat) :=
  sdnvDec >>= fun n => readBytes n

/-- Encoding of a `DataCollection` (datatype.py lines 87-95): SDNV count
then the blobs back to back. -/
def encodeDataCollection (items : List (List Nat)) : List Nat :=
  sdnvFieldLenFieldI2m items.length none ++ (items.map encodeBlob).flatten

/-- Dissection of a `DataCollection`. -/
def decDataCollection : Dec (List (List Nat)) :=
  sdnvDec >>= fun n => decListN decBlob n

/-- Encoding of a `MidCollection` (datatype.py lines 175-184). -/
def encodeMidCollection (items : List Mid) : List Nat :=
  sdnvFieldLenFieldI2m items.length none ++ (items.map encodeMid).flatten

/-- Dissection of a `MidCollection`. -/
def decMidCollection : Dec (List Mid) :=
  sdnvDec >>= fun n => decListN decMid n

/-- Encoding of a `TimeRule` (datatype.py lines 186-195): three SDNV fields
then the embedded `MidCollection`. -/
def encodeTimeRule (start period count : Option Nat) (action : List Mid) : List Nat :=
  sdnvFieldI2m start ++ sdnvFieldI2m period ++ sdnvFieldI2m count ++
    encodeMidCollection action

/-- Dissection of a `TimeRule`. -/
def decTimeRule : Dec (Nat × Nat × Nat × List Mid) :=
  sdnvDec >>= fun s => sdnvDec >>= fun p => sdnvDec >>= fun c =>
  decMidCollection >>= fun ms => pure (s, p, c, ms)

/-- Big-endian fixed-width byte string of `n` (scapy struct formats `!i`,
`!I`, `!q`, `!Q`, `!f`, `!d`; numeric and floating payloads are carried by
their bit pattern). -/
def beBytes : Nat → Nat → List Nat
  | 0, _ => []
  | k + 1, n => (n / 256 ^ k) % 256 :: beBytes k n

/-- The typed values of the registry: one constructor per `AbstractData`
class bound in the `bind_layers` table (datatype.py lines 197-212). -/
inductive Value where
  | byteV (v : Nat)
  | intV (v : Nat)
  | uintV (v : Nat)
  | vastV (v : Nat)
  | uvastV (v : Nat)
  | float32V (v : Nat)
  | float64V (v : Nat)
  | strV (s : List Nat)
  | blobV (data : List Nat)
  | sdnvV (v : Option Nat)
  | tsV (v : Option Nat)
  | midV (m : Mid)
  | midCollV (items : List Mid)
  | timeRuleV (start period count : Option Nat) (action : List Mid)
  | typedCollV (items : List Value)

mutual

/-- `TypedData` encoding: the one-byte type tag of the `bind_layers` table
followed by the payload bytes of the bound class. -/
def encValue : Value → List Nat
  | .byteV v => 0 :: [v % 256]
  | .intV v => 1 :: beBytes 4 v
  | .uintV v => 2 :: beBytes 4 v
  | .vastV v => 3 :: beBytes 8 v
  | .uvastV v => 4 :: beBytes 8 v
  | .float32V v => 5 :: beBytes 4 v
  | .float64V v => 6 :: beBytes 8 v
  | .strV s => 7 :: (s ++ [0])
  | .blobV d => 8 :: encodeBlob d
  | .sdnvV o => 9 :: sdnvFieldI2m o
  | .tsV o => 10 :: sdnvFieldI2m o
  | .midV m => 12 :: encodeMid m
  | .midCollV ms => 13 :: encodeMidCollection ms
  | .timeRuleV s p c ms => 16 :: encodeTimeRule s p c ms
  | .typedCollV vs => 18 :: (sdnvFieldLenFieldI2m vs.length none ++ encVList vs)

/-- Back-to-back encodings of a list of typed values
(`TypedDataCollection.items`). -/
def encVList : List Value → List Nat
  | [] => []
  | v :: vs => encValue v ++ encVList vs

end

/-- Modelled from the spec: dissection of a typed envelope.  The tag byte
selects the payload codec per the `bind_layers` table (datatype.py lines
197-212); a tag with no bound class is a dissection failure
(`UnknownTypeTag`) before any further byte is consumed.  The fuel bounds
the nesting depth of `TypedDataCollection` payloads; any fuel at least the
buffer length suffices since each nesting level consumes the tag byte. -/
def decValueF : Nat → Dec Value
  | 0 => fun _ => none
  | f + 1 =>
    readByte >>= fun tag =>
    match tag with
    | 0 => readByte >>= fun v => pure (Value.byteV v)
    | 1 => readBytes 4 >>= fun bs => pure (Value.intV (bs.foldl (fun a b => a * 256 + b) 0))
    | 2 => readBytes 4 >>= fun bs => pure (Value.uintV (bs.foldl (fun a b => a * 256 + b) 0))
    | 3 => readBytes 8 >>= fun bs => pure (Value.vastV (bs.foldl (fun a b => a * 256 + b) 0))
    | 4 => readBytes 8 >>= fun bs => pure (Value.uvastV (bs.foldl (fun a b => a * 256 + b) 0))
    | 5 => readBytes 4 >>= fun bs => pure (Value.float32V (bs.foldl (fun a b => a * 256 + b) 0))
    | 6 => readBytes 8 >>= fun bs => pure (Value.float64V (bs.foldl (fun a b => a * 256 + b) 0))
    | 7 => strNullDec >>= fun s => pure (Value.strV s)
    | 8 => decBlob >>= fun d => pure (Value.blobV d)
    | 9 => sdnvDec >>= fun v => pure (Value.sdnvV (some v))
    | 10 => sdnvDec >>= fun v => pure (Value.tsV (some v))
    | 12 => decMid >>= fun m => pure (Value.midV m)
    | 13 => decMidCollection >>= fun ms => pure (Value.midCollV ms)
    | 16 => decTimeRule >>= fun r =>
        pure (Value.timeRuleV (some r.1) (some r.2.1) (some r.2.2.1) r.2.2.2)
    | 18 => sdnvDec >>= fun n => decListN (decValueF f) n >>= fun items =>
        pure (Value.typedCollV items)
    | _ => fun _ => none

/-- Encoding of a `TypedDataCollection` (datatype.py lines 97-113): SDNV
count then that many typed envelopes back to back. -/
def encodeTypedDataCollection (vs : List Value) : List Nat :=
  sdnvFieldLenFieldI2m vs.length none ++ encVList vs

/-- Top-level dissection of a `TypedDataCollection`; the envelope fuel is
the buffer length, which always suffices. -/
def decTypedDataCollection : List Nat → Option (List Value × List Nat) := fun b =>
  (sdnvDec >>= fun n => decListN (decValueF b.length) n) b


/- ### Lemmas about the integer codec -/
theorem sdnvGroupsF_congr : ∀ f1 : Nat, ∀ f2 n : Nat, n ≤ f1 → n ≤ f2 →
    sdnvGroupsF f1 n = sdnvGroupsF f2 n := by
  intro f1
  induction f1 using Nat.strong_induction_on with
  | _ f1 ih =>
    intro f2 n h1 h2
    match f1, f2 with
    | 0, 0 => rfl
    | 0, f2 + 1 =>
      interval_cases n
      simp [sdnvGroupsF]
    | f1 + 1, 0 =>
      interval_cases n
      simp [sdnvGroupsF]
    | f1 + 1, f2 + 1 =>
      by_cases hn : n < 128
      · simp [sdnvGroupsF, hn]
      · have hdiv : n / 128 < n := Nat.div_lt_self (by omega) (by omega)
        simp only [sdnvGroupsF, hn, if_false]
        rw [ih f1 (by omega) f2 (n / 128) (by omega) (by omega)]

theorem sdnvGroups_eq (n : Nat) :
    sdnvGroups n = if n < 128 then [n] else sdnvGroups (n / 128) ++ [n % 128] := by
  unfold sdnvGroups
  by_cases hn : n < 128
  · cases n with
    | zero => simp [sdnvGroupsF, hn]
    | succ m => simp [sdnvGroupsF, hn]
  · have hdiv : n / 128 < n := Nat.div_lt_self (by omega) (by omega)
    cases n with
    | zero => omega
    | succ m =>
      simp only [sdnvGroupsF, hn, if_false]
      rw [sdnvGroupsF_congr m ((m + 1) / 128) ((m + 1) / 128) (by omega) (by omega)]

theorem sdnvGroups_ne_nil (n : Nat) : sdnvGroups n ≠ [] := by
  rw [sdnvGroups_eq]
  by_cases hn : n < 128 <;> simp [hn]

theorem sdnvGroups_lt : ∀ n : Nat, ∀ g ∈ sdnvGroups n, g < 128 := by
  intro n
  induction n using Nat.strong_induction_on with
  | _ n ih =>
    intro g hg
    rw [sdnvGroups_eq] at hg
    by_cases hn : n < 128
    · simp [hn] at hg; omega
    · simp only [hn, if_false, List.mem_append, List.mem_singleton] at hg
      rcases hg with hg | hg
      · exact ih (n / 128) (Nat.div_lt_self (by omega) (by omega)) g hg
      · omega

theorem sdnvGroups_foldl : ∀ n : Nat,
    (sdnvGroups n).foldl (fun a g => a * 128 + g) 0 = n := by
  have hfold : ∀ l : List Nat, ∀ a y : Nat,
      (l ++ [y]).foldl (fun a g => a * 128 + g) a =
        (l.foldl (fun a g => a * 128 + g) a) * 128 + y := by
    intro l
    induction l with
    | nil => intro a y; rfl
    | cons x xs ih => intro a y; simp only [List.cons_append, List.foldl_cons, ih]
  intro n
  induction n using Nat.strong_induction_on with
  | _ n ih =>
    rw [sdnvGroups_eq]
    by_cases hn : n < 128
    · simp [hn]
    · simp only [hn, if_false]
      rw [hfold, ih (n / 128) (Nat.div_lt_self (by omega) (by omega))]
      omega

theorem markCont_length (l : List Nat) : (markCont l).length = l.length := by
  induction l with
  | nil => rfl
  | cons x xs ih =>
    cases xs with
    | nil => rfl
    | cons y ys => simpa [markCont] using ih

theorem int2sdnv_ne_nil (n : Nat) : int2sdnv n ≠ [] := by
  intro h
  have hl := markCont_length (sdnvGroups n)
  rw [show markCont (sdnvGroups n) = int2sdnv n from rfl, h] at hl
  exact sdnvGroups_ne_nil n (List.length_eq_zero.mp hl.symm)

theorem sdnvlen_eq_length (n : Nat) : sdnvlen n = (int2sdnv n).length := by
  rw [int2sdnv, markCont_length, sdnvlen]

theorem sdnv2intAux_markCont : ∀ l : List Nat, ∀ acc : Nat, ∀ t : List Nat,
    l ≠ [] → (∀ g ∈ l, g < 128) →
    sdnv2intAux acc (markCont l ++ t) =
      some (t, l.foldl (fun a g => a * 128 + g) acc) := by
  intro l
  induction l with
  | nil => intro acc t h; exact absurd rfl h
  | cons x xs ih =>
    intro acc t _ hlt
    cases xs with
    | nil =>
      have hx : x < 128 := hlt x (by simp)
      simp [markCont, sdnv2intAux, hx]
    | cons y ys =>
      have hx : x < 128 := hlt x (by simp)
      have h128 : ¬(x + 128 < 128) := by omega
      have hmod : (x + 128) % 128 = x := by omega
      have hih := ih (acc * 128 + x) t (by simp) (fun g hg => hlt g (by simp [hg]))
      simp only [markCont, List.cons_append, sdnv2intAux, h128, if_false, hmod,
        List.foldl_cons]
      exact hih

theorem sdnv_exact (n : Nat) (t : List Nat) :
    sdnv2int (int2sdnv n ++ t) = some (t, n) := by
  rw [sdnv2int, int2sdnv]
  rw [sdnv2intAux_markCont (sdnvGroups n) 0 t (sdnvGroups_ne_nil n) (sdnvGroups_lt n)]
  rw [sdnvGroups_foldl]

theorem sdnv2intAux_rest_length : ∀ data : List Nat, ∀ acc r v,
    sdnv2intAux acc data = some (r, v) → r.length < data.length := by
  intro data
  induction data with
  | nil => intro acc r v h; simp [sdnv2intAux] at h
  | cons b rest ih =>
    intro acc r v h
    simp only [sdnv2intAux] at h
    by_cases hb : b < 128
    · rw [if_pos hb] at h
      simp only [Option.some.injEq, Prod.mk.injEq] at h
      obtain ⟨h1, _⟩ := h
      subst h1
      simp
    · rw [if_neg hb] at h
      have := ih _ _ _ h
      simp only [List.length_cons]
      omega

theorem sdnv2intAux_all_cont : ∀ l : List Nat, ∀ acc : Nat, (∀ x ∈ l, 128 ≤ x) →
    sdnv2intAux acc l = none := by
  intro l
  induction l with
  | nil => intro acc _; rfl
  | cons b rest ih =>
    intro acc hl
    have hb : ¬b < 128 := by have := hl b (by simp); omega
    simp only [sdnv2intAux, hb, if_false]
    exact ih _ (fun x hx => hl x (by simp [hx]))

theorem markCont_dropLast_ge : ∀ l : List Nat, ∀ x ∈ (markCont l).dropLast, 128 ≤ x := by
  intro l
  induction l with
  | nil => intro x hx; simp [markCont] at hx
  | cons a l ih =>
    cases l with
    | nil => intro x hx; simp [markCont] at hx
    | cons b l2 =>
      intro x hx
      simp only [markCont] at hx
      have hne : markCont (b :: l2) ≠ [] := by
        intro h
        have := markCont_length (b :: l2)
        rw [h] at this
        simp at this
      rw [List.dropLast_cons_of_ne_nil hne] at hx
      rcases List.mem_cons.mp hx with h | h
      · omega
      · exact ih x h

theorem sdnv2int_dropLast (n : Nat) : sdnv2int ((int2sdnv n).dropLast) = none :=
  sdnv2intAux_all_cont _ 0 (markCont_dropLast_ge (sdnvGroups n))

theorem sdnvSeqF_congr : ∀ f1 : Nat, ∀ f2 data, data.length ≤ f1 → data.length ≤ f2 →
    sdnvSeqF f1 data = sdnvSeqF f2 data := by
  intro f1
  induction f1 using Nat.strong_induction_on with
  | _ f1 ih =>
    intro f2 data h1 h2
    match data with
    | [] => cases f1 <;> cases f2 <;> rfl
    | d :: ds =>
      match f1, f2 with
      | 0, _ => simp at h1
      | _ + 1, 0 => simp at h2
      | f1 + 1, f2 + 1 =>
        simp only [sdnvSeqF]
        cases hs : sdnv2int (d :: ds) with
        | none => rfl
        | some p =>
          obtain ⟨r, v⟩ := p
          have hr := sdnv2intAux_rest_length (d :: ds) 0 r v hs
          simp only [List.length_cons] at hr h1 h2
          have hcongr := ih f1 (by omega) f2 r (by omega) (by omega)
          simp [hcongr]

theorem sdnvSeq_step (data r : List Nat) (v : Nat) (hne : data ≠ [])
    (h : sdnv2int data = some (r, v)) :
    sdnvSeq data = (sdnvSeq r).map (fun vs => v :: vs) := by
  match data, hne with
  | d :: ds, _ =>
    show sdnvSeqF (ds.length + 1) (d :: ds) = _
    simp only [sdnvSeqF, h]
    have hr := sdnv2intAux_rest_length (d :: ds) 0 r v h
    simp only [List.length_cons] at hr
    rw [sdnvSeqF_congr ds.length r.length r (by omega) (by omega)]
    rfl

theorem sdnvSeq_join : ∀ vs : List Nat, sdnvSeq ((vs.map int2sdnv).flatten) = some vs := by
  intro vs
  induction vs with
  | nil => rfl
  | cons v vs ih =>
    have hne : int2sdnv v ++ (vs.map int2sdnv).flatten ≠ [] := by
      intro h
      exact int2sdnv_ne_nil v (List.append_eq_nil.mp h).1
    rw [show ((v :: vs).map int2sdnv).flatten = int2sdnv v ++ (vs.map int2sdnv).flatten by simp]
    rw [sdnvSeq_step _ _ _ hne (sdnv_exact v _), ih]
    rfl

theorem sdnvlen_pos (n : Nat) : 0 < sdnvlen n := by
  rw [sdnvlen]
  cases h : sdnvGroups n with
  | nil => exact absurd h (sdnvGroups_ne_nil n)
  | cons a l => simp

theorem lt_pow_sdnvlen : ∀ n : Nat, n < 128 ^ sdnvlen n := by
  intro n
  induction n using Nat.strong_induction_on with
  | _ n ih =>
    rw [sdnvlen, sdnvGroups_eq]
    by_cases hn : n < 128
    · rw [if_pos hn]
      simpa using hn
    · simp only [hn, if_false, List.length_append, List.length_cons, List.length_nil]
      have hih := ih (n / 128) (Nat.div_lt_self (by omega) (by omega))
      rw [sdnvlen] at hih
      calc n < 128 * (n / 128 + 1) := by omega
        _ ≤ 128 * 128 ^ (sdnvGroups (n / 128)).length := by
            exact Nat.mul_le_mul_left 128 hih
        _ = 128 ^ ((sdnvGroups (n / 128)).length + (0 + 1)) := by
            rw [pow_succ]; ring

theorem sdnvlen_le_of_lt_pow : ∀ n : Nat, ∀ k : Nat, 0 < k → n < 128 ^ k →
    sdnvlen n ≤ k := by
  intro n
  induction n using Nat.strong_induction_on with
  | _ n ih =>
    intro k hk hnk
    rw [sdnvlen, sdnvGroups_eq]
    by_cases hn : n < 128
    · rw [if_pos hn]
      simpa using hk
    · simp only [hn, if_false, List.length_append, List.length_cons, List.length_nil]
      have hk2 : 2 ≤ k := by
        by_contra h
        have hk1 : k = 1 := by omega
        subst hk1
        simp only [pow_one] at hnk
        omega
      have hdiv : n / 128 < 128 ^ (k - 1) := by
        rw [Nat.div_lt_iff_lt_mul (by omega)]
        calc n < 128 ^ k := hnk
          _ = 128 ^ (k - 1) * 128 := by
              rw [← pow_succ]
              congr 1
              omega
      have := ih (n / 128) (Nat.div_lt_self (by omega) (by omega)) (k - 1) (by omega) hdiv
      rw [sdnvlen] at this
      omega

theorem sdnvlen_merge_le (a b : Nat) : sdnvlen (a * 40 + b) ≤ sdnvlen a + sdnvlen b := by
  have ha := lt_pow_sdnvlen a
  have hb := lt_pow_sdnvlen b
  have hla := sdnvlen_pos a
  have hlb := sdnvlen_pos b
  apply sdnvlen_le_of_lt_pow _ _ (by omega)
  have hx : (128 : Nat) ≤ 128 ^ sdnvlen a := by
    calc (128 : Nat) = 128 ^ 1 := (pow_one 128).symm
      _ ≤ 128 ^ sdnvlen a := Nat.pow_le_pow_right (by omega) hla
  have hy : (128 : Nat) ≤ 128 ^ sdnvlen b := by
    calc (128 : Nat) = 128 ^ 1 := (pow_one 128).symm
      _ ≤ 128 ^ sdnvlen b := Nat.pow_le_pow_right (by omega) hlb
  rw [pow_add]
  nlinarith

theorem int2sdnv_lt128 (n : Nat) (h : n < 128) : int2sdnv n = [n] := by
  rw [int2sdnv, sdnvGroups_eq]
  simp [h, markCont]

/- ### Lemmas about the OID codec -/
theorem flatten_map_int2sdnv_length (l : List Nat) :
    ((l.map int2sdnv).flatten).length = (l.map sdnvlen).sum := by
  induction l with
  | nil => rfl
  | cons x xs ih =>
    simp only [List.map_cons, List.flatten_cons, List.length_append, ih,
      List.sum_cons, sdnvlen_eq_length]

theorem oidI2m_length_le (x : Option (List Nat)) : (oidI2m x).length ≤ oidI2len x := by
  match x with
  | none => exact Nat.le_refl 0
  | some [] => simp [oidI2m, oidI2len, tuple2oidenc]
  | some [c] => simp [oidI2m, oidI2len, tuple2oidenc]
  | some (c0 :: c1 :: rest) =>
    show (tuple2oidenc (c0 :: c1 :: rest)).length ≤ ((c0 :: c1 :: rest).map sdnvlen).sum
    rw [show tuple2oidenc (c0 :: c1 :: rest) =
        (((c0 * 40 + c1) :: rest).map int2sdnv).flatten from rfl]
    rw [flatten_map_int2sdnv_length]
    simp only [List.map_cons, List.sum_cons]
    have := sdnvlen_merge_le c0 c1
    omega

theorem oid_roundtrip (c0 c1 : Nat) (rest : List Nat)
    (hm : c0 * 40 + c1 < 128) (hc1 : c1 < 40) :
    oidenc2tuple (tuple2oidenc (c0 :: c1 :: rest)) = some (c0 :: c1 :: rest) := by
  have henc : tuple2oidenc (c0 :: c1 :: rest) =
      (c0 * 40 + c1) :: (rest.map int2sdnv).flatten := by
    show (((c0 * 40 + c1) :: rest).map int2sdnv).flatten = _
    rw [List.map_cons, List.flatten_cons, int2sdnv_lt128 _ hm]
    rfl
  rw [henc]
  show (sdnvSeq ((rest.map int2sdnv).flatten)).map _ = _
  rw [sdnvSeq_join]
  simp only [Option.map_some']
  have h1 : (c0 * 40 + c1) / 40 = c0 := by omega
  have h2 : (c0 * 40 + c1) % 40 = c1 := by omega
  rw [h1, h2]

/- ### Basic decoder lemmas -/
theorem Dec.bind_apply {α β : Type} (d : Dec α) (f : α → Dec β) (b : List Nat) :
    (d >>= f) b =
      match d b with
      | none => none
      | some (a, r) => f a r := rfl

theorem Dec.pure_apply {α : Type} (a : α) (b : List Nat) :
    (pure a : Dec α) b = some (a, b) := rfl

theorem Dec.bind_apply_some {α β : Type} {d : Dec α} {f : α → Dec β} {b : List Nat}
    {a : α} {r : List Nat} (h : d b = some (a, r)) : (d >>= f) b = f a r := by
  rw [Dec.bind_apply, h]

theorem Dec.bind_apply_none {α β : Type} {d : Dec α} {f : α → Dec β} {b : List Nat}
    (h : d b = none) : (d >>= f) b = none := by
  rw [Dec.bind_apply, h]

theorem sdnvFieldLenFieldI2m_none (n : Nat) : sdnvFieldLenFieldI2m n none = int2sdnv n := rfl

theorem sdnvFieldI2m_none : sdnvFieldI2m none = int2sdnv 0 := rfl

theorem sdnvFieldI2m_getD (o : Option Nat) : sdnvFieldI2m o = int2sdnv (o.getD 0) := rfl

theorem take_append_of_length {α : Type} {l t : List α} {n : Nat} (h : l.length = n) :
    (l ++ t).take n = l := by
  subst h
  exact List.take_left l t

theorem drop_append_of_length {α : Type} {l t : List α} {n : Nat} (h : l.length = n) :
    (l ++ t).drop n = t := by
  subst h
  exact List.drop_left l t

theorem readBytes_exact {l t : List Nat} {n : Nat} (h : l.length = n) :
    readBytes n (l ++ t) = some (l, t) := by
  unfold readBytes
  rw [take_append_of_length h, drop_append_of_length h]

theorem readBytes_over {b : List Nat} {n : Nat} (h : b.length ≤ n) :
    readBytes n b = some (b, []) := by
  unfold readBytes
  rw [List.take_of_length_le h, List.drop_eq_nil_of_le h]

theorem sdnvDec_exact (n : Nat) (t : List Nat) : sdnvDec (int2sdnv n ++ t) = some (n, t) := by
  unfold sdnvDec
  rw [sdnv_exact]

theorem sdnvDec_nil : sdnvDec [] = none := rfl

theorem sdnvDec_dropLast (n : Nat) : sdnvDec ((int2sdnv n).dropLast) = none := by
  unfold sdnvDec
  rw [sdnv2int_dropLast]

theorem blob_exact (d t : List Nat) : decBlob (encodeBlob d ++ t) = some (d, t) := by
  unfold decBlob encodeBlob
  rw [sdnvFieldLenFieldI2m_none, List.append_assoc,
    Dec.bind_apply_some (sdnvDec_exact d.length (d ++ t))]
  exact readBytes_exact rfl

theorem encodeBlob_ne_nil (d : List Nat) : encodeBlob d ≠ [] := by
  unfold encodeBlob
  rw [sdnvFieldLenFieldI2m_none]
  intro h
  exact int2sdnv_ne_nil d.length (List.append_eq_nil.mp h).1

theorem decListN_zero {α : Type} (d : Dec α) (b : List Nat) :
    decListN d 0 b = some ([], b) := rfl

theorem decListN_succ_nil {α : Type} (d : Dec α) (n : Nat) :
    decListN d (n + 1) [] = some ([], []) := rfl

theorem decListN_succ_cons {α : Type} (d : Dec α) (n : Nat) {b : List Nat}
    (hb : b ≠ []) :
    decListN d (n + 1) b =
      (d >>= fun x => decListN d n >>= fun xs => pure (x :: xs)) b := by
  match b, hb with
  | x :: t, _ => rfl

theorem decListN_blob : ∀ items : List (List Nat), ∀ t : List Nat,
    decListN decBlob items.length ((items.map encodeBlob).flatten ++ t) =
      some (items, t) := by
  intro items
  induction items with
  | nil => intro t; simp [decListN, Dec.pure_apply]
  | cons x xs ih =>
    intro t
    have hne : encodeBlob x ++ ((xs.map encodeBlob).flatten ++ t) ≠ [] :=
      fun h => encodeBlob_ne_nil x (List.append_eq_nil.mp h).1
    rw [show ((x :: xs).map encodeBlob).flatten ++ t =
        encodeBlob x ++ ((xs.map encodeBlob).flatten ++ t) by simp]
    rw [show (x :: xs).length = xs.length + 1 from rfl,
      decListN_succ_cons decBlob xs.length hne,
      Dec.bind_apply_some (blob_exact x _), Dec.bind_apply_some (ih t)]
    rfl

theorem blob_trunc_lenient (d : List Nat) (hd : d ≠ []) :
    decBlob ((encodeBlob d).dropLast) = some (d.dropLast, []) := by
  unfold decBlob encodeBlob
  rw [sdnvFieldLenFieldI2m_none, List.dropLast_append_of_ne_nil _ hd,
    Dec.bind_apply_some (sdnvDec_exact d.length _)]
  exact readBytes_over (by rw [List.length_dropLast]; omega)

theorem decListN_blob_trunc : ∀ items : List (List Nat), items ≠ [] →
    (decListN decBlob items.length
      (((items.map encodeBlob).flatten).dropLast)).isSome = true := by
  intro items
  induction items with
  | nil => intro h; exact absurd rfl h
  | cons x xs ih =>
    intro _
    cases hxs : xs with
    | nil =>
      subst hxs
      rw [show (([x].map encodeBlob).flatten) = encodeBlob x by simp]
      cases hx : x with
      | nil =>
        subst hx
        rw [show ((encodeBlob ([] : List Nat)).dropLast) = [] from rfl]
        rfl
      | cons b bs =>
        subst hx
        have hne : ((encodeBlob (b :: bs)).dropLast) ≠ [] := by
          rw [show encodeBlob (b :: bs) =
              int2sdnv (b :: bs).length ++ (b :: bs) from rfl,
            List.dropLast_append_of_ne_nil _ (List.cons_ne_nil b bs)]
          exact fun h => int2sdnv_ne_nil _ (List.append_eq_nil.mp h).1
        rw [show ([b :: bs] : List (List Nat)).length = 0 + 1 from rfl,
          decListN_succ_cons decBlob 0 hne,
          Dec.bind_apply_some (blob_trunc_lenient (b :: bs) (List.cons_ne_nil b bs))]
        rfl
    | cons y ys =>
      subst hxs
      have hfne : (((y :: ys).map encodeBlob).flatten) ≠ [] := by
        rw [show (((y :: ys).map encodeBlob).flatten) =
            encodeBlob y ++ ((ys.map encodeBlob).flatten) by simp]
        exact fun h => encodeBlob_ne_nil y (List.append_eq_nil.mp h).1
      rw [show (((x :: y :: ys).map encodeBlob).flatten) =
          encodeBlob x ++ (((y :: ys).map encodeBlob).flatten) by simp,
        List.dropLast_append_of_ne_nil _ hfne]
      have hne2 : encodeBlob x ++ ((((y :: ys).map encodeBlob).flatten).dropLast) ≠ [] :=
        fun h => encodeBlob_ne_nil x (List.append_eq_nil.mp h).1
      rw [show (x :: y :: ys).length = (y :: ys).length + 1 from rfl,
        decListN_succ_cons decBlob (y :: ys).length hne2,
        Dec.bind_apply_some (blob_exact x _)]
      obtain ⟨p, hp⟩ := Option.isSome_iff_exists.mp (ih (List.cons_ne_nil y ys))
      obtain ⟨xs2, r2⟩ := p
      rw [Dec.bind_apply_some hp]
      rfl

theorem decDataCollection_trunc_succ : ∀ items : List (List Nat), items ≠ [] →
    (decDataCollection ((encodeDataCollection items).dropLast)).isSome = true := by
  intro items hne
  cases hitems : items with
  | nil => exact absurd hitems hne
  | cons x xs =>
    subst hitems
    unfold decDataCollection encodeDataCollection
    rw [sdnvFieldLenFieldI2m_none]
    have hfne : (((x :: xs).map encodeBlob).flatten) ≠ [] := by
      rw [show (((x :: xs).map encodeBlob).flatten) =
          encodeBlob x ++ ((xs.map encodeBlob).flatten) by simp]
      exact fun h => encodeBlob_ne_nil x (List.append_eq_nil.mp h).1
    rw [List.dropLast_append_of_ne_nil _ hfne,
      Dec.bind_apply_some (sdnvDec_exact (x :: xs).length _)]
    exact decListN_blob_trunc (x :: xs) (List.cons_ne_nil x xs)

/- ### Lemmas about the `Mid` record -/
theorem midFlagByte_testBits (m : Mid) :
    (midFlagByte m).testBit 7 = m.nickname.isSome ∧
    (midFlagByte m).testBit 6 = m.parameters.isSome ∧
    (midFlagByte m).testBit 5 = m.tag.isSome ∧
    (midFlagByte m).testBit 4 = m.issuer.isSome ∧
    midFlagByte m % 16 = 0 := by
  rcases m with ⟨i, n, o, p, t⟩
  cases i <;> cases n <;> cases p <;> cases t <;>
    (refine ⟨?_, ?_, ?_, ?_, ?_⟩ <;> (simp [midFlagByte, presBit]; try decide))

theorem condSdnv_optSdnv (o : Option Nat) (t : List Nat) :
    condSdnv o.isSome (optSdnv o ++ t) = some (o, t) := by
  cases o with
  | none => rfl
  | some v =>
    show condSdnv true (int2sdnv v ++ t) = some (some v, t)
    unfold condSdnv
    rw [if_pos rfl, Dec.bind_apply_some (sdnvDec_exact v t)]
    rfl

theorem readByte_cons (x : Nat) (l : List Nat) : readByte (x :: l) = some (x, l) := rfl

theorem condSdnv_true_none {b : List Nat} (h : sdnvDec b = none) :
    condSdnv true b = none := by
  unfold condSdnv
  rw [if_pos rfl]
  exact Dec.bind_apply_none h

theorem encodeMid_ne_nil (m : Mid) : encodeMid m ≠ [] := by
  unfold encodeMid
  exact List.cons_ne_nil _ _

theorem decMid_tag_trunc (m : Mid) (hp : m.parameters = none)
    (ht : m.tag.isSome = true) : decMid ((encodeMid m).dropLast) = none := by
  obtain ⟨hb7, hb6, hb5, hb4, _⟩ := midFlagByte_testBits m
  rw [hp, Option.isSome_none] at hb6
  cases htag : m.tag with
  | none => rw [htag] at ht; simp at ht
  | some tv =>
    rw [htag, Option.isSome_some] at hb5
    have hAL := oidI2m_length_le m.oid
    have hTBne : int2sdnv tv ≠ [] := int2sdnv_ne_nil tv
    have henc : encodeMid m = midFlagByte m ::
        (optSdnv m.issuer ++ (optSdnv m.nickname ++ (int2sdnv (oidI2len m.oid) ++
          (oidI2m m.oid ++ int2sdnv tv)))) := by
      unfold encodeMid
      rw [hp, htag]
      rw [show optSdnv (some tv) = int2sdnv tv from rfl]
      simp [sdnvFieldLenFieldI2m_none, List.append_assoc]
    have h1 : oidI2m m.oid ++ int2sdnv tv ≠ [] :=
      fun h => hTBne (List.append_eq_nil.mp h).2
    have h2 : int2sdnv (oidI2len m.oid) ++ (oidI2m m.oid ++ int2sdnv tv) ≠ [] :=
      fun h => h1 (List.append_eq_nil.mp h).2
    have h3 : optSdnv m.nickname ++
        (int2sdnv (oidI2len m.oid) ++ (oidI2m m.oid ++ int2sdnv tv)) ≠ [] :=
      fun h => h2 (List.append_eq_nil.mp h).2
    have h4 : optSdnv m.issuer ++ (optSdnv m.nickname ++
        (int2sdnv (oidI2len m.oid) ++ (oidI2m m.oid ++ int2sdnv tv))) ≠ [] :=
      fun h => h3 (List.append_eq_nil.mp h).2
    rw [henc, List.dropLast_cons_of_ne_nil h4,
      List.dropLast_append_of_ne_nil _ h3,
      List.dropLast_append_of_ne_nil _ h2,
      List.dropLast_append_of_ne_nil _ h1,
      List.dropLast_append_of_ne_nil _ hTBne]
    unfold decMid
    rw [Dec.bind_apply_some (readByte_cons (midFlagByte m) _)]
    unfold decMidAfterFlags
    rw [hb4, Dec.bind_apply_some (condSdnv_optSdnv m.issuer _)]
    rw [hb7, Dec.bind_apply_some (condSdnv_optSdnv m.nickname _)]
    rw [Dec.bind_apply_some (sdnvDec_exact (oidI2len m.oid) _)]
    have hsplit : readBytes (oidI2len m.oid) (oidI2m m.oid ++ (int2sdnv tv).dropLast) =
        some (oidI2m m.oid ++
            ((int2sdnv tv).dropLast).take (oidI2len m.oid - (oidI2m m.oid).length),
          ((int2sdnv tv).dropLast).drop (oidI2len m.oid - (oidI2m m.oid).length)) := by
      unfold readBytes
      rw [List.take_append_eq_append_take, List.drop_append_eq_append_drop,
        List.take_of_length_le hAL, List.drop_eq_nil_of_le hAL, List.nil_append]
    rw [Dec.bind_apply_some hsplit]
    cases hoid : oidenc2tuple (oidI2m m.oid ++
        ((int2sdnv tv).dropLast).take (oidI2len m.oid - (oidI2m m.oid).length)) with
    | none => exact Dec.bind_apply_none rfl
    | some o =>
      rw [Dec.bind_apply_some (show ofOption (some o)
          (((int2sdnv tv).dropLast).drop (oidI2len m.oid - (oidI2m m.oid).length)) =
          some (o, ((int2sdnv tv).dropLast).drop
            (oidI2len m.oid - (oidI2m m.oid).length)) from rfl)]
      rw [hb6, if_neg (by simp)]
      rw [Dec.bind_apply_some (Dec.pure_apply (none : Option (List Nat)) _)]
      rw [hb5]
      apply Dec.bind_apply_none
      apply condSdnv_true_none
      unfold sdnvDec
      rw [show sdnv2int (((int2sdnv tv).dropLast).drop
          (oidI2len m.oid - (oidI2m m.oid).length)) = none from
        sdnv2intAux_all_cont _ 0 (fun x hx =>
          markCont_dropLast_ge (sdnvGroups tv) x (List.mem_of_mem_drop hx))]

/- ### Lemmas about typed envelopes -/
theorem decValueF_zero (b : List Nat) : decValueF 0 b = none := rfl

theorem decValueF_tag0 (f : Nat) (r : List Nat) :
    decValueF (f + 1) (0 :: r) = (readByte >>= fun v => pure (Value.byteV v)) r := rfl

theorem decValueF_tag1 (f : Nat) (r : List Nat) :
    decValueF (f + 1) (1 :: r) =
      (readBytes 4 >>= fun bs =>
        pure (Value.intV (bs.foldl (fun a b => a * 256 + b) 0))) r := rfl

theorem decValueF_tag2 (f : Nat) (r : List Nat) :
    decValueF (f + 1) (2 :: r) =
      (readBytes 4 >>= fun bs =>
        pure (Value.uintV (bs.foldl (fun a b => a * 256 + b) 0))) r := rfl

theorem decValueF_tag3 (f : Nat) (r : List Nat) :
    decValueF (f + 1) (3 :: r) =
      (readBytes 8 >>= fun bs =>
        pure (Value.vastV (bs.foldl (fun a b => a * 256 + b) 0))) r := rfl

theorem decValueF_tag4 (f : Nat) (r : List Nat) :
    decValueF (f + 1) (4 :: r) =
      (readBytes 8 >>= fun bs =>
        pure (Value.uvastV (bs.foldl (fun a b => a * 256 + b) 0))) r := rfl

theorem decValueF_tag5 (f : Nat) (r : List Nat) :
    decValueF (f + 1) (5 :: r) =
      (readBytes 4 >>= fun bs =>
        pure (Value.float32V (bs.foldl (fun a b => a * 256 + b) 0))) r := rfl

theorem decValueF_tag6 (f : Nat) (r : List Nat) :
    decValueF (f + 1) (6 :: r) =
      (readBytes 8 >>= fun bs =>
        pure (Value.float64V (bs.foldl (fun a b => a * 256 + b) 0))) r := rfl

theorem decValueF_tag7 (f : Nat) (r : List Nat) :
    decValueF (f + 1) (7 :: r) =
      (strNullDec >>= fun s => pure (Value.strV s)) r := rfl

theorem decValueF_tag8 (f : Nat) (r : List Nat) :
    decValueF (f + 1) (8 :: r) = (decBlob >>= fun d => pure (Value.blobV d)) r := rfl

theorem decValueF_tag9 (f : Nat) (r : List Nat) :
    decValueF (f + 1) (9 :: r) =
      (sdnvDec >>= fun v => pure (Value.sdnvV (some v))) r := rfl

theorem decValueF_tag10 (f : Nat) (r : List Nat) :
    decValueF (f + 1) (10 :: r) =
      (sdnvDec >>= fun v => pure (Value.tsV (some v))) r := rfl

theorem decValueF_tag12 (f : Nat) (r : List Nat) :
    decValueF (f + 1) (12 :: r) = (decMid >>= fun m => pure (Value.midV m)) r := rfl

theorem decValueF_tag13 (f : Nat) (r : List Nat) :
    decValueF (f + 1) (13 :: r) =
      (decMidCollection >>= fun ms => pure (Value.midCollV ms)) r := rfl

theorem decValueF_tag16 (f : Nat) (r : List Nat) :
    decValueF (f + 1) (16 :: r) =
      (decTimeRule >>= fun p =>
        pure (Value.timeRuleV (some p.1) (some p.2.1) (some p.2.2.1) p.2.2.2)) r := rfl

theorem decValueF_tag18 (f : Nat) (r : List Nat) :
    decValueF (f + 1) (18 :: r) =
      (sdnvDec >>= fun n => decListN (decValueF f) n >>= fun items =>
        pure (Value.typedCollV items)) r := rfl

theorem decValueF_tag11 (f : Nat) (r : List Nat) :
    decValueF (f + 1) (11 :: r) = none := rfl

theorem decValueF_tag14 (f : Nat) (r : List Nat) :
    decValueF (f + 1) (14 :: r) = none := rfl

theorem decValueF_tag15 (f : Nat) (r : List Nat) :
    decValueF (f + 1) (15 :: r) = none := rfl

theorem decValueF_tag17 (f : Nat) (r : List Nat) :
    decValueF (f + 1) (17 :: r) = none := rfl

/- ### Claim theorems -/
/-- C1 counterexample: for the identifier `[3, 10]` the claimed encoding
(first byte equal to `3 * 40 + 10 = 130`, no further components) is not what
the encoder produces: the merged value is itself run through the
variable-length integer encoder, giving the two bytes `0x81 0x02` whose
first byte is `129`, not `130`. -/
theorem C1_counterexample : tuple2oidenc [3, 10] ≠ [3 * 40 + 10] := by decide

/-- C1 (amended): when the merged first two components fit in seven bits
(`c0 * 40 + c1 < 128`), the encoder emits one leading byte equal to
`c0 * 40 + c1` followed by the variable-length integer encoding of each
remaining component in order; in particular `[1, 3, 6]` encodes to exactly
the two bytes `0x2B 0x06`. -/
theorem C1_identifier_encoding :
    (∀ c0 c1 : Nat, ∀ rest : List Nat, c0 * 40 + c1 < 128 →
      tuple2oidenc (c0 :: c1 :: rest) =
        (c0 * 40 + c1) :: (rest.map int2sdnv).flatten) ∧
    tuple2oidenc [1, 3, 6] = [0x2B, 0x06] := by
  constructor
  · intro c0 c1 rest hm
    show (((c0 * 40 + c1) :: rest).map int2sdnv).flatten = _
    rw [List.map_cons, List.flatten_cons, int2sdnv_lt128 _ hm]
    rfl
  · decide

/-- C1 witness: the amended statement at the concrete identifier `[1, 3, 6]`. -/
theorem C1_identifier_encoding_witness :
    1 * 40 + 3 < 128 ∧
      tuple2oidenc (1 :: 3 :: [6]) = (1 * 40 + 3) :: ([6].map int2sdnv).flatten :=
  ⟨by decide, C1_identifier_encoding.1 1 3 [6] (by decide)⟩

/-- C2 counterexample: the identifier `[3, 20]` satisfies the claimed
hypotheses (`3 * 40 + 20 = 140 < 256` and `20 < 40`) yet does not round
trip: the merged value `140` needs two SDNV bytes, and the decoder splits
only the first raw byte, yielding `[3, 9, 12]`. -/
theorem C2_counterexample :
    (3 * 40 + 20 < 256 ∧ 20 < 40) ∧
      oidenc2tuple (tuple2oidenc [3, 20]) ≠ some [3, 20] := by decide

/-- C2 (amended): identifiers whose merged leading value fits in seven bits
(`c0 * 40 + c1 < 128`, not merely `< 256`) and whose second component is
below 40 round trip exactly through the identifier codec. -/
theorem C2_identifier_roundtrip : ∀ c0 c1 : Nat, ∀ rest : List Nat,
    c0 * 40 + c1 < 128 → c1 < 40 →
    oidenc2tuple (tuple2oidenc (c0 :: c1 :: rest)) = some (c0 :: c1 :: rest) :=
  fun c0 c1 rest hm hc1 => oid_roundtrip c0 c1 rest hm hc1

/-- C2 witness: the round trip at the concrete identifier `[1, 3, 6, 1]`. -/
theorem C2_identifier_roundtrip_witness :
    oidenc2tuple (tuple2oidenc [1, 3, 6, 1]) = some [1, 3, 6, 1] :=
  C2_identifier_roundtrip 1 3 [6, 1] (by decide) (by decide)

/-- C3 counterexample: the core encoder does not fail on the one-component
identifier `[1]`; it silently produces empty output (`tuple2oidenc` is a
total function returning the empty string for fewer than two components). -/
theorem C3_counterexample : tuple2oidenc [1] = [] := by decide

/-- C3 (amended): the core byte encoder maps every identifier with fewer
than two components to empty output without raising; the error is raised
only by the separate human-to-internal validation `h2i`, which rejects any
sequence of fewer than three components (hence `[1]`) with a `ValueError`. -/
theorem C3_short_identifier :
    (∀ l : List Nat, l.length < 2 → tuple2oidenc l = []) ∧
    (∀ l : List Nat, l.length < 3 →
      OidField_h2i (some l) = Except.error "OID must have at least 3 elements") := by
  constructor
  · intro l hl
    match l, hl with
    | [], _ => rfl
    | [c], _ => rfl
  · intro l hl
    simp only [OidField_h2i]
    rw [if_pos hl]

/-- C3 witness: the amended statement at the concrete input `[1]`. -/
theorem C3_short_identifier_witness :
    tuple2oidenc [1] = [] ∧
      OidField_h2i (some [1]) = Except.error "OID must have at least 3 elements" :=
  ⟨C3_short_identifier.1 [1] (by decide), C3_short_identifier.2 [1] (by decide)⟩

/-- C4: the `oid_len` value written by `OidField.i2len` does not equal the
byte length of the identifier encoding that follows it.  For the `Mid` with
`oid = (1, 3, 6)` the record declares `oid_len = 3` (the per-component SDNV
lengths summed without the two-component merge) while the encoded OID is
only the 2 bytes `0x2B 0x06`; the emitted record is `[0x00, 0x03, 0x2B,
0x06]`, whose length field overruns the OID bytes. -/
theorem C4_oid_len_mismatch :
    oidI2len (some [1, 3, 6]) = 3 ∧ (oidI2m (some [1, 3, 6])).length = 2 ∧
      encodeMid ⟨none, none, some [1, 3, 6], none, none⟩ = [0, 3, 43, 6] :=
  ⟨by decide, by decide, by decide⟩

/-- C5: the presence-flag byte of an encoded `Mid` is its first byte; its
top four bits are, in the declared order, nickname-present (bit 7),
parameters-present (bit 6), tag-present (bit 5) and issuer-present
(bit 4); each bit is set exactly when the corresponding optional field is
non-`None`, and the low four pad bits are zero. -/
theorem C5_presence_flags : ∀ m : Mid,
    (encodeMid m).head? = some (midFlagByte m) ∧
    midFlagByte m % 16 = 0 ∧
    (midFlagByte m).testBit 7 = m.nickname.isSome ∧
    (midFlagByte m).testBit 6 = m.parameters.isSome ∧
    (midFlagByte m).testBit 5 = m.tag.isSome ∧
    (midFlagByte m).testBit 4 = m.issuer.isSome := by
  intro m
  obtain ⟨h7, h6, h5, h4, h16⟩ := midFlagByte_testBits m
  exact ⟨rfl, h16, h7, h6, h5, h4⟩

/-- C6: the reserved tags 11, 14, 15 and 17 have no bound payload class in
the `bind_layers` table, so a typed envelope starting with any of them
fails to dissect whatever bytes follow the tag (the failure depends only on
the tag byte, no further byte is consumed). -/
theorem C6_unknown_tags : ∀ f : Nat, ∀ rest : List Nat,
    decValueF f (11 :: rest) = none ∧ decValueF f (14 :: rest) = none ∧
    decValueF f (15 :: rest) = none ∧ decValueF f (17 :: rest) = none := by
  intro f rest
  cases f with
  | zero => exact ⟨rfl, rfl, rfl, rfl⟩
  | succ f => exact ⟨decValueF_tag11 f rest, decValueF_tag14 f rest,
      decValueF_tag15 f rest, decValueF_tag17 f rest⟩

/-- C7: encoding an empty `DataCollection` yields exactly the single
zero-valued SDNV count byte, and every blob collection round trips: its
encoding decodes back to the same blobs in the same order with nothing
left over. -/
theorem C7_blob_collection_roundtrip :
    encodeDataCollection [] = [0] ∧
    (∀ items : List (List Nat),
      decDataCollection (encodeDataCollection items) = some (items, [])) := by
  constructor
  · rfl
  · intro items
    unfold decDataCollection encodeDataCollection
    rw [sdnvFieldLenFieldI2m_none,
      Dec.bind_apply_some (sdnvDec_exact items.length _)]
    have h := decListN_blob items []
    rwa [List.append_nil] at h

/-- C8 counterexample: truncation is not detected.  Dropping the last byte
of the encoding `0x00 0x03 0x2B 0x06` of the parameter-free identifier
record with `oid = (1, 3, 6)` leaves `0x00 0x03 0x2B`, which still decodes
successfully (the OID slice `s[:3]` of the single remaining byte silently
yields that byte, giving `oid = (1, 3)`); dropping the last byte of the
encoded blob `0x02 0x41 0x42` leaves `0x02 0x41`, which decodes successfully
to the one-byte data `0x41`; the truncated encodings of the blob collection
`[0x41 0x42]` and of the identifier record with parameters `0x41 0x42`
decode successfully as well. -/
theorem C8_counterexample :
    (decMid ((encodeMid ⟨none, none, some [1, 3, 6], none, none⟩).dropLast)).isSome
      = true ∧
    decBlob ((encodeBlob [65, 66]).dropLast) = some ([65], []) ∧
    (decDataCollection ((encodeDataCollection [[65, 66]]).dropLast)).isSome = true ∧
    (decMid ((encodeMid ⟨none, none, some [1, 3], some [65, 66], none⟩).dropLast)).isSome
      = true := by
  decide

/-- C8 (amended): removing the final byte of an encoded composite record is
in general NOT detected, because dissection slices the buffer with Python
`s[:l]` and scapy's list and string fields stop without error on a short
buffer; a decode failure arises only where the truncation leaves a required
variable-length integer incomplete or missing.  Concretely: the truncated
empty blob fails (its whole encoding is the length byte, so the length
VarInt is missing) but a blob with nonempty data decodes successfully to
the data shortened by one byte; the truncated empty blob collection fails
(its count VarInt is missing) but a nonempty blob collection still decodes
successfully (the final blob is shortened or dropped); an identifier record
with parameters absent and a tag present always fails (the trailing tag
VarInt loses its final byte), while truncated records ending in the OID
slice or the parameters string decode successfully with silently truncated
content (counterexample theorem). -/
theorem C8_truncation :
    decBlob ((encodeBlob []).dropLast) = none ∧
    (∀ d : List Nat, d ≠ [] →
      decBlob ((encodeBlob d).dropLast) = some (d.dropLast, [])) ∧
    decDataCollection ((encodeDataCollection ([] : List (List Nat))).dropLast) = none ∧
    (∀ items : List (List Nat), items ≠ [] →
      (decDataCollection ((encodeDataCollection items).dropLast)).isSome = true) ∧
    (∀ m : Mid, m.parameters = none → m.tag.isSome = true →
      decMid ((encodeMid m).dropLast) = none) :=
  ⟨by decide, blob_trunc_lenient, by decide, decDataCollection_trunc_succ,
    decMid_tag_trunc⟩

/-- C8 witness: the amended statement at concrete inputs: the truncated
encoding of the blob `0x41 0x42` decodes to the shortened data `0x41`, and
truncation of the parameter-free record with `oid = (1, 3, 6)` and
`tag = 5` is detected. -/
theorem C8_truncation_witness :
    decBlob ((encodeBlob [65, 66]).dropLast) = some (([65, 66] : List Nat).dropLast, []) ∧
    decMid ((encodeMid ⟨none, none, some [1, 3, 6], none, some 5⟩).dropLast) = none :=
  ⟨C8_truncation.2.1 [65, 66] (by decide),
    C8_truncation.2.2.2.2 ⟨none, none, some [1, 3, 6], none, some 5⟩ rfl rfl⟩

/-- C9 counterexample: a length-prefix field whose value is `None` does not
emit the zero byte; it emits the SDNV of the extracted length of the
referenced field.  For a blob of two bytes the prefix is `0x02`, not the
encoding of zero. -/
theorem C9_counterexample :
    encodeBlob [65, 66] = [2, 65, 66] ∧ sdnvFieldLenFieldI2m 2 none ≠ int2sdnv 0 :=
  ⟨by decide, by decide⟩

/-- C9 (amended): encoding a `None` value is total for every SDNV field:
a plain `SdnvField` (issuer, nickname, tag, start, period, count of
`TimeRule`) emits the one-byte encoding of zero, while a length/count
prefix field emits the SDNV of the length or count extracted from the
referenced field (the zero byte exactly when that count is zero). -/
theorem C9_none_encoding :
    sdnvFieldI2m none = [0] ∧ int2sdnv 0 = [0] ∧
    (∀ n : Nat, sdnvFieldLenFieldI2m n none = int2sdnv n) :=
  ⟨rfl, rfl, fun _ => rfl⟩

/-- C10 counterexample: identifier decoding is not total; the two bytes
`0x00 0x80` leave a truncated variable-length integer after the first byte
and decoding fails. -/
theorem C10_counterexample : oidenc2tuple [0, 128] = none := by decide

/-- C10 (amended): identifier decoding is total exactly on byte strings
whose tail parses as complete variable-length integers: the empty string
decodes to the empty tuple, the single byte `0x30` decodes to `(1, 8)`,
and whenever the tail decodes, the result has at least two components, the
first two being the leading byte divided by and modulo 40 (so the second is
always below 40). -/
theorem C10_decoder_totality :
    oidenc2tuple ([] : List Nat) = some [] ∧
    oidenc2tuple [0x30] = some [1, 8] ∧
    (∀ b0 : Nat, ∀ rest vals : List Nat, sdnvSeq rest = some vals →
      oidenc2tuple (b0 :: rest) = some (b0 / 40 :: b0 % 40 :: vals) ∧
      b0 % 40 < 40 ∧ 2 ≤ (b0 / 40 :: b0 % 40 :: vals).length) := by
  refine ⟨rfl, by decide, fun b0 rest vals h => ⟨?_, by omega, by simp⟩⟩
  show (sdnvSeq rest).map _ = _
  rw [h]
  rfl

/-- C10 witness: the amended statement at the concrete bytes `0x64 0x02`. -/
theorem C10_decoder_totality_witness :
    oidenc2tuple (100 :: [2]) = some (100 / 40 :: 100 % 40 :: [2]) ∧
      100 % 40 < 40 ∧ 2 ≤ (100 / 40 :: 100 % 40 :: [2]).length :=
  C10_decoder_totality.2.2 100 [2] [2] rfl
